import Mathlib

/-!
Verification of the orbit-file selection logic of `sentineleof`
(`eof/scihubclient.py` and `eof/download.py`).

Datetimes are modelled as integer seconds on a linear timeline.  Python
`datetime.date()` at day granularity is floor division of the timestamp by
86400; Lean `Int` division is Euclidean division, which agrees with floor
division for a positive divisor, so `t / 86400` is a faithful model of the
day of `t`.  `timedelta` arithmetic is plain integer addition.
-/

/-- Seconds per day, the granularity used by `datetime.date()`. -/
def secondsPerDay : Int := 86400

/-- Day-granularity date of a timestamp, as in Python `dt.date()`:
floor division of the timestamp by the length of a day. -/
def dateOf (t : Int) : Int := t / secondsPerDay

/-- Modelled from the spec: `eof/products.py` (the `SentinelOrbit` filename
descriptor) is not under `src/`.  Per the spec (sections 3 and 4.1) a
descriptor carries a validity start, a validity stop and a creation timestamp
parsed out of the product identifier string; `filename` is that identifier
string itself.  The code under `src/` only ever reads these fields of a
parsed descriptor, so the embedding works with the already parsed record. -/
structure SentinelOrbit where
  start_time : Int
  stop_time : Int
  created_time : Int
  filename : String
deriving DecidableEq

/-- Modelled from the spec: `SentinelOrbit.date` (read by `_dedupe_links`) is
the validity-start date at day granularity (spec section 4.2). -/
def SentinelOrbit.date (o : SentinelOrbit) : Int := dateOf o.start_time

/-- Full coverage of the interval `[t0, t1]`, the test of
`scihubclient.lastval_cover`: `item.start_time <= t0 and item.stop_time >= t1`
(containment, not mere overlap). -/
def covers (o : SentinelOrbit) (t0 t1 : Int) : Prop :=
  o.start_time ≤ t0 ∧ t1 ≤ o.stop_time

instance (o : SentinelOrbit) (t0 t1 : Int) : Decidable (covers o t0 t1) :=
  inferInstanceAs (Decidable (_ ∧ _))

/-- Descending comparison by an integer key.  Python `list.sort` is a stable
sort; with `reverse=True` the key order is reversed while equal keys keep
their input order, which is exactly a stable merge sort under this
comparator. -/
def keyDesc {α : Type} (key : α → Int) (a b : α) : Bool :=
  decide (key b ≤ key a)

/-- Embedding of `lastval_cover` (scihubclient.py lines 26-40): keep the
candidates that fully cover `[t0, t1]`; raise `ValidityError` when there are
none (the source checks emptiness before sorting; here the check is the
emptiness of the sorted list, which is the same list up to permutation);
otherwise sort by `created_time` descending (stably, as
`candidates.sort(key=..., reverse=True)` does) and return the filename of the
first element. -/
def lastval_cover (t0 t1 : Int) (data : List SentinelOrbit) : Except String String :=
  let candidates := data.filter (fun item => decide (covers item t0 t1))
  match (candidates.mergeSort (keyDesc SentinelOrbit.created_time)).head? with
  | none =>
      Except.error "none of the input products completely covers the requested time interval"
  | some c => Except.ok c.filename

theorem keyDesc_trans {α : Type} (key : α → Int) :
    ∀ (a b c : α), keyDesc key a b → keyDesc key b c → keyDesc key a c := by
  intro a b c h1 h2
  simp only [keyDesc, decide_eq_true_eq] at *
  omega

theorem keyDesc_total {α : Type} (key : α → Int) :
    ∀ (a b : α), keyDesc key a b || keyDesc key b a := by
  intro a b
  simp only [keyDesc]
  by_cases h : key b ≤ key a
  · simp [h]
  · simp [h, le_of_not_le h]

theorem pairwise_keyDesc_of_const {α : Type} (key : α → Int) (M : Int) :
    ∀ (c : List α), (∀ x ∈ c, key x = M) → c.Pairwise (fun a b => keyDesc key a b) := by
  intro c
  induction c with
  | nil => intro _; exact List.Pairwise.nil
  | cons a l ih =>
      intro h
      refine List.Pairwise.cons ?_ (ih fun x hx => h x (List.mem_cons_of_mem a hx))
      intro b hb
      have ha : key a = M := h a (List.mem_cons_self a l)
      have hb' : key b = M := h b (List.mem_cons_of_mem a hb)
      simp [keyDesc, ha, hb']

theorem head_filter_firstIdx {α : Type} (p : α → Bool) :
    ∀ (l : List α) (x : α), (l.filter p).head? = some x →
      ∃ i : Fin l.length, l.get i = x ∧ p x ∧
        ∀ j : Fin l.length, j < i → ¬ p (l.get j) := by
  intro l
  induction l with
  | nil => intro x hx; simp at hx
  | cons a l ih =>
      intro x hx
      by_cases hpa : p a
      · rw [List.filter_cons_of_pos hpa] at hx
        simp only [List.head?_cons, Option.some.injEq] at hx
        subst hx
        refine ⟨⟨0, by simp⟩, rfl, hpa, ?_⟩
        intro j hj
        exact absurd hj (by simp [Fin.lt_def])
      · rw [List.filter_cons_of_neg hpa] at hx
        obtain ⟨i, hgeti, hpx, hfirst⟩ := ih x hx
        refine ⟨⟨i.val + 1, by simp⟩, by simpa using hgeti, hpx, ?_⟩
        intro j hj
        rcases j with ⟨jv, hjv⟩
        cases jv with
        | zero => simpa using hpa
        | succ jv' =>
            have hjv' : jv' < l.length := by
              simpa using Nat.lt_of_succ_lt_succ hjv
            have : (⟨jv', hjv'⟩ : Fin l.length) < i := by
              simp only [Fin.lt_def] at hj ⊢
              omega
            simpa using hfirst ⟨jv', hjv'⟩ this

theorem exists_key_max {α : Type} (key : α → Int) :
    ∀ (l : List α), l ≠ [] → ∃ m, m ∈ l ∧ ∀ b ∈ l, key b ≤ key m := by
  intro l
  induction l with
  | nil => intro h; exact absurd rfl h
  | cons a l ih =>
      intro _
      by_cases hl : l = []
      · subst hl
        exact ⟨a, List.mem_cons_self a [], by simp⟩
      · obtain ⟨m, hm, hmax⟩ := ih hl
        by_cases h : key m ≤ key a
        · refine ⟨a, List.mem_cons_self a l, ?_⟩
          intro b hb
          rcases List.mem_cons.mp hb with rfl | hb'
          · exact le_refl _
          · exact (hmax b hb').trans h
        · refine ⟨m, List.mem_cons_of_mem a hm, ?_⟩
          intro b hb
          rcases List.mem_cons.mp hb with rfl | hb'
          · exact le_of_not_le h
          · exact hmax b hb'

/-- Head of a stable descending merge sort of a filtered list: it is the
first element of the base list, in input order, that passes the filter and
attains the maximal key among the elements passing the filter.  This is the
behaviour of Python `list.sort(key=..., reverse=True)` followed by `[0]`. -/
theorem head_mergeSort_filter_spec {α : Type} (p : α → Bool) (key : α → Int)
    (l : List α) (hne : l.filter p ≠ []) :
    ∃ i : Fin l.length,
      p (l.get i) ∧
      ((l.filter p).mergeSort (keyDesc key)).head? = some (l.get i) ∧
      (∀ j : Fin l.length, p (l.get j) → key (l.get j) ≤ key (l.get i)) ∧
      (∀ j : Fin l.length, j < i → p (l.get j) → key (l.get j) < key (l.get i)) := by
  obtain ⟨m, hm, hmax⟩ := exists_key_max key (l.filter p) hne
  have hmc : m ∈ (l.filter p).filter (fun a => decide (key a = key m)) :=
    List.mem_filter.mpr ⟨hm, by simp⟩
  have hc_ne : (l.filter p).filter (fun a => decide (key a = key m)) ≠ [] := by
    intro h
    rw [h] at hmc
    exact absurd hmc (List.not_mem_nil m)
  have hpw : ((l.filter p).filter (fun a => decide (key a = key m))).Pairwise
      (fun a b => keyDesc key a b) := by
    refine pairwise_keyDesc_of_const key (key m) _ ?_
    intro x hx
    have := (List.mem_filter.mp hx).2
    simpa using this
  have hstable : List.Sublist ((l.filter p).filter (fun a => decide (key a = key m)))
      ((l.filter p).mergeSort (keyDesc key)) :=
    List.sublist_mergeSort (keyDesc_trans key) (keyDesc_total key) hpw
      (List.filter_sublist (l.filter p))
  have hlen : ((l.filter p).mergeSort (keyDesc key)).length = (l.filter p).length :=
    (List.mergeSort_perm (l.filter p) (keyDesc key)).length_eq
  obtain ⟨h0, t, hms⟩ : ∃ h0 t, (l.filter p).mergeSort (keyDesc key) = h0 :: t := by
    cases hms : (l.filter p).mergeSort (keyDesc key) with
    | nil =>
        exfalso
        rw [hms] at hlen
        exact hne (List.eq_nil_of_length_eq_zero hlen.symm)
    | cons a b => exact ⟨a, b, rfl⟩
  have hh_mem : h0 ∈ l.filter p := by
    have : h0 ∈ (l.filter p).mergeSort (keyDesc key) := by
      rw [hms]; exact List.mem_cons_self h0 t
    exact List.mem_mergeSort.mp this
  have hhM_le : key h0 ≤ key m := hmax h0 hh_mem
  have hMh : key m ≤ key h0 := by
    have hm_ms : m ∈ (l.filter p).mergeSort (keyDesc key) := List.mem_mergeSort.mpr hm
    rw [hms] at hm_ms
    rcases List.mem_cons.mp hm_ms with rfl | hmt
    · exact le_refl _
    · have hsorted := List.sorted_mergeSort (keyDesc_trans key) (keyDesc_total key)
        (l.filter p)
      rw [hms] at hsorted
      have := (List.pairwise_cons.mp hsorted).1 m hmt
      simpa [keyDesc] using this
  have hkey_h0 : key h0 = key m := le_antisymm hhM_le hMh
  obtain ⟨x, c', hcx⟩ : ∃ x c',
      (l.filter p).filter (fun a => decide (key a = key m)) = x :: c' :=
    List.exists_cons_of_ne_nil hc_ne
  have hx_eq : x = h0 := by
    rw [hcx, hms] at hstable
    cases hstable with
    | cons₂ h2 => rfl
    | cons ha h2 =>
        exfalso
        have hcntc : List.countP (fun a => decide (key a = key m)) (x :: c') =
            (x :: c').length := by
          rw [← hcx]
          exact List.countP_eq_length.mpr (fun a ha => (List.mem_filter.mp ha).2)
        have hle : List.countP (fun a => decide (key a = key m)) (x :: c') ≤
            List.countP (fun a => decide (key a = key m)) t :=
          List.Sublist.countP_le (fun a => decide (key a = key m)) h2
        have hcnt_ms : List.countP (fun a => decide (key a = key m)) (h0 :: t) =
            List.countP (fun a => decide (key a = key m)) (l.filter p) := by
          rw [← hms]
          exact (List.mergeSort_perm (l.filter p) (keyDesc key)).countP_eq _
        have hcand_c : List.countP (fun a => decide (key a = key m)) (l.filter p) =
            (x :: c').length := by
          rw [← hcx]
          exact List.countP_eq_length_filter _ _
        have hcons : List.countP (fun a => decide (key a = key m)) (h0 :: t) =
            List.countP (fun a => decide (key a = key m)) t + 1 := by
          simp [List.countP_cons, hkey_h0]
        omega
  have hc_head : (l.filter (fun a => decide (key a = key m) && p a)).head? = some h0 := by
    have hff : (l.filter p).filter (fun a => decide (key a = key m)) =
        l.filter (fun a => decide (key a = key m) && p a) :=
      List.filter_filter _ l
    rw [← hff, hcx, hx_eq]
    rfl
  obtain ⟨i, hgeti, hQ, hfirst⟩ :=
    head_filter_firstIdx (fun a => decide (key a = key m) && p a) l h0 hc_head
  have hQ' : key h0 = key m ∧ p h0 := by simpa using hQ
  refine ⟨i, ?_, ?_, ?_, ?_⟩
  · rw [hgeti]; exact hQ'.2
  · rw [hms, hgeti]; rfl
  · intro j hpj
    have hjmem : l.get j ∈ l.filter p :=
      List.mem_filter.mpr ⟨List.get_mem l j.val j.isLt, hpj⟩
    have := hmax _ hjmem
    rw [hgeti, hQ'.1]
    exact this
  · intro j hji hpj
    have hnot := hfirst j hji
    have hjmem : l.get j ∈ l.filter p :=
      List.mem_filter.mpr ⟨List.get_mem l j.val j.isLt, hpj⟩
    have hle' := hmax _ hjmem
    have hne' : key (l.get j) ≠ key m := by
      intro hEq
      exact hnot (by rw [Bool.and_eq_true, decide_eq_true_eq]; exact ⟨hEq, hpj⟩)
    rw [hgeti, hQ'.1]
    exact lt_of_le_of_ne hle' hne'

/-- Positional characterization of `lastval_cover` on inputs that contain at
least one covering candidate: the result is the filename of the first
candidate, in input order, that covers `[t0, t1]` and attains the maximal
`created_time` among the covering candidates. -/
theorem lastval_cover_characterization (t0 t1 : Int) (data : List SentinelOrbit)
    (hex : ∃ c ∈ data, covers c t0 t1) :
    ∃ i : Fin data.length,
      covers (data.get i) t0 t1 ∧
      lastval_cover t0 t1 data = Except.ok (data.get i).filename ∧
      (∀ j : Fin data.length, covers (data.get j) t0 t1 →
        (data.get j).created_time ≤ (data.get i).created_time) ∧
      (∀ j : Fin data.length, j < i → covers (data.get j) t0 t1 →
        (data.get j).created_time < (data.get i).created_time) := by
  obtain ⟨c, hc, hcov⟩ := hex
  have hne : data.filter (fun item => decide (covers item t0 t1)) ≠ [] := by
    intro h
    have : c ∈ data.filter (fun item => decide (covers item t0 t1)) :=
      List.mem_filter.mpr ⟨hc, decide_eq_true hcov⟩
    rw [h] at this
    exact absurd this (List.not_mem_nil c)
  obtain ⟨i, hpi, hhead, hmax, hfirst⟩ :=
    head_mergeSort_filter_spec (fun item => decide (covers item t0 t1))
      SentinelOrbit.created_time data hne
  refine ⟨i, of_decide_eq_true hpi, ?_, ?_, ?_⟩
  · simp only [lastval_cover]
    rw [hhead]
  · intro j hj
    exact hmax j (decide_eq_true hj)
  · intro j hji hj
    exact hfirst j hji (decide_eq_true hj)

/-- C1: for every target interval `[t0, t1]` and candidate list,
`lastval_cover` returns (the filename of) a candidate `C` with
`C.start_time <= t0` and `C.stop_time >= t1` whenever such a fully covering
candidate exists, and raises `ValidityError` exactly when no candidate fully
covers `[t0, t1]`; partial overlap never qualifies. -/
theorem lastval_cover_covering_spec :
    ∀ (t0 t1 : Int) (data : List SentinelOrbit),
      ((∃ c ∈ data, covers c t0 t1) →
        ∃ c ∈ data, covers c t0 t1 ∧ lastval_cover t0 t1 data = Except.ok c.filename)
      ∧ ((∃ e, lastval_cover t0 t1 data = Except.error e) ↔
          ∀ c ∈ data, ¬ covers c t0 t1) := by
  intro t0 t1 data
  constructor
  · intro hex
    obtain ⟨i, hcov, hres, -, -⟩ := lastval_cover_characterization t0 t1 data hex
    exact ⟨data.get i, List.get_mem data i.val i.isLt, hcov, hres⟩
  · constructor
    · rintro ⟨e, he⟩ c hc hcov
      obtain ⟨i, -, hres, -, -⟩ :=
        lastval_cover_characterization t0 t1 data ⟨c, hc, hcov⟩
      rw [hres] at he
      exact Except.noConfusion he
    · intro h
      have hnil : data.filter (fun item => decide (covers item t0 t1)) = [] :=
        List.filter_eq_nil_iff.mpr (fun a ha => by simpa using h a ha)
      refine ⟨"none of the input products completely covers the requested time interval", ?_⟩
      simp only [lastval_cover]
      rw [hnil, List.mergeSort_nil]
      rfl

/-- Witness for C1 at a concrete input: two candidates, the second one
covering `[5, 6]`. -/
theorem lastval_cover_covering_spec_witness :
    ∃ c ∈ [SentinelOrbit.mk 7 9 0 "A", SentinelOrbit.mk 2 8 1 "B"], covers c 5 6 ∧
      lastval_cover 5 6 [SentinelOrbit.mk 7 9 0 "A", SentinelOrbit.mk 2 8 1 "B"] =
        Except.ok c.filename :=
  (lastval_cover_covering_spec 5 6
    [SentinelOrbit.mk 7 9 0 "A", SentinelOrbit.mk 2 8 1 "B"]).1 (by decide)

/-- C6: among covering candidates `lastval_cover` returns one whose
`created_time` is maximal (the sort is by `created_time` descending and the
first element is returned); in particular, on an input consisting of two
candidates with identical coverage but different `created_time`, it returns
the one with the later `created_time`, in either input order. -/
theorem lastval_cover_latest_creation :
    ∀ (t0 t1 : Int),
      (∀ data, (∃ c ∈ data, covers c t0 t1) →
        ∃ c ∈ data, covers c t0 t1 ∧ lastval_cover t0 t1 data = Except.ok c.filename ∧
          ∀ a ∈ data, covers a t0 t1 → a.created_time ≤ c.created_time)
      ∧ (∀ a b, covers a t0 t1 → covers b t0 t1 →
          a.created_time < b.created_time →
          lastval_cover t0 t1 [a, b] = Except.ok b.filename ∧
          lastval_cover t0 t1 [b, a] = Except.ok b.filename) := by
  intro t0 t1
  have main : ∀ data, (∃ c ∈ data, covers c t0 t1) →
      ∃ c ∈ data, covers c t0 t1 ∧ lastval_cover t0 t1 data = Except.ok c.filename ∧
        ∀ a ∈ data, covers a t0 t1 → a.created_time ≤ c.created_time := by
    intro data hex
    obtain ⟨i, hcov, hres, hmax, -⟩ := lastval_cover_characterization t0 t1 data hex
    refine ⟨data.get i, List.get_mem data i.val i.isLt, hcov, hres, ?_⟩
    intro a ha hacov
    obtain ⟨j, hj⟩ := List.mem_iff_get.mp ha
    subst hj
    exact hmax j hacov
  refine ⟨main, ?_⟩
  intro a b hca hcb hlt
  constructor
  · obtain ⟨c, hc, hccov, hres, hmax⟩ := main [a, b] ⟨b, by simp, hcb⟩
    have hbc : b.created_time ≤ c.created_time := hmax b (by simp) hcb
    rcases List.mem_pair.mp hc with rfl | rfl
    · omega
    · exact hres
  · obtain ⟨c, hc, hccov, hres, hmax⟩ := main [b, a] ⟨b, by simp, hcb⟩
    have hbc : b.created_time ≤ c.created_time := hmax b (by simp) hcb
    rcases List.mem_pair.mp hc with rfl | rfl
    · exact hres
    · omega

/-- Witness for C6 at a concrete input. -/
theorem lastval_cover_latest_creation_witness :
    lastval_cover 5 6 [SentinelOrbit.mk 2 8 1 "A", SentinelOrbit.mk 1 9 4 "B"] =
      Except.ok "B" ∧
    lastval_cover 5 6 [SentinelOrbit.mk 1 9 4 "B", SentinelOrbit.mk 2 8 1 "A"] =
      Except.ok "B" :=
  (lastval_cover_latest_creation 5 6).2 (SentinelOrbit.mk 2 8 1 "A")
    (SentinelOrbit.mk 1 9 4 "B") (by decide) (by decide) (by decide)

/-- C10: the selection is deterministic beyond the stated tie-break.  The
returned candidate is the one at the first input position holding the maximal
`created_time` among covering candidates (the sort is stable), so the result
is pinned down by the input list alone. -/
theorem lastval_cover_stable_first_max :
    ∀ (t0 t1 : Int) (data : List SentinelOrbit),
      (∃ c ∈ data, covers c t0 t1) →
      ∃ i : Fin data.length,
        covers (data.get i) t0 t1 ∧
        lastval_cover t0 t1 data = Except.ok (data.get i).filename ∧
        (∀ j : Fin data.length, covers (data.get j) t0 t1 →
          (data.get j).created_time ≤ (data.get i).created_time) ∧
        (∀ j : Fin data.length, j < i → covers (data.get j) t0 t1 →
          (data.get j).created_time < (data.get i).created_time) := by
  intro t0 t1 data hex
  exact lastval_cover_characterization t0 t1 data hex

/-- Witness for C10 at a concrete input: two covering candidates share the
maximal creation time; the first one in input order is returned. -/
theorem lastval_cover_stable_first_max_witness :
    ∃ i : Fin 3,
      covers (([SentinelOrbit.mk 2 8 7 "A", SentinelOrbit.mk 1 9 7 "B",
          SentinelOrbit.mk 0 9 2 "C"] : List SentinelOrbit).get i) 5 6 ∧
      lastval_cover 5 6 [SentinelOrbit.mk 2 8 7 "A", SentinelOrbit.mk 1 9 7 "B",
          SentinelOrbit.mk 0 9 2 "C"] =
        Except.ok (([SentinelOrbit.mk 2 8 7 "A", SentinelOrbit.mk 1 9 7 "B",
          SentinelOrbit.mk 0 9 2 "C"] : List SentinelOrbit).get i).filename ∧
      (∀ j : Fin 3, covers (([SentinelOrbit.mk 2 8 7 "A", SentinelOrbit.mk 1 9 7 "B",
          SentinelOrbit.mk 0 9 2 "C"] : List SentinelOrbit).get j) 5 6 →
        (([SentinelOrbit.mk 2 8 7 "A", SentinelOrbit.mk 1 9 7 "B",
          SentinelOrbit.mk 0 9 2 "C"] : List SentinelOrbit).get j).created_time ≤
        (([SentinelOrbit.mk 2 8 7 "A", SentinelOrbit.mk 1 9 7 "B",
          SentinelOrbit.mk 0 9 2 "C"] : List SentinelOrbit).get i).created_time) ∧
      (∀ j : Fin 3, j < i → covers (([SentinelOrbit.mk 2 8 7 "A",
          SentinelOrbit.mk 1 9 7 "B", SentinelOrbit.mk 0 9 2 "C"] :
          List SentinelOrbit).get j) 5 6 →
        (([SentinelOrbit.mk 2 8 7 "A", SentinelOrbit.mk 1 9 7 "B",
          SentinelOrbit.mk 0 9 2 "C"] : List SentinelOrbit).get j).created_time <
        (([SentinelOrbit.mk 2 8 7 "A", SentinelOrbit.mk 1 9 7 "B",
          SentinelOrbit.mk 0 9 2 "C"] : List SentinelOrbit).get i).created_time) :=
  lastval_cover_stable_first_max 5 6
    [SentinelOrbit.mk 2 8 7 "A", SentinelOrbit.mk 1 9 7 "B", SentinelOrbit.mk 0 9 2 "C"]
    (by decide)

/-- Embedding of `_dedupe_links` (download.py lines 161-167).  The source
iterates over URL strings and parses `link.split("/")[-1]` through
`SentinelOrbit` (products.py, not under src/); links are embedded as their
parsed descriptors.  In the source, `orb1` is bound to the first link once,
before the loop, and never reassigned, so every subsequent link is compared
against the FIRST link's validity-start date; the loop appending on
`date != orb1.date` is a filter of the tail.  On an empty input `links[0]`
raises `IndexError`, modelled as `none`. -/
def _dedupe_links (links : List SentinelOrbit) : Option (List SentinelOrbit) :=
  match links with
  | [] => none
  | l0 :: rest => some (l0 :: rest.filter (fun link => decide (link.date ≠ l0.date)))

/-- Modelled from the spec: the deduplication as the spec describes it
(section 4.2) — keep the first candidate; keep each subsequent candidate
exactly when its validity-start date differs from the date of the previous
KEPT candidate.  Defined only to compare the described algorithm with
`_dedupe_links`. -/
def dedupeLastKept_go (last : SentinelOrbit) : List SentinelOrbit → List SentinelOrbit
  | [] => []
  | l :: rest =>
    if l.date ≠ last.date then l :: dedupeLastKept_go l rest
    else dedupeLastKept_go last rest

/-- Modelled from the spec: entry point of the last-kept deduplication,
failing on the empty list exactly as `_dedupe_links` does. -/
def dedupeLastKept : List SentinelOrbit → Option (List SentinelOrbit)
  | [] => none
  | l0 :: rest => some (l0 :: dedupeLastKept_go l0 rest)

/-- C2 counterexample: on three links with validity-start dates
day 0, day 1, day 1, the algorithm described by the claim (compare to the
last KEPT candidate) would drop the third link, but `_dedupe_links` keeps it,
because the code compares every link to the FIRST one. -/
theorem dedupe_links_not_last_kept :
    _dedupe_links [SentinelOrbit.mk 0 0 0 "A", SentinelOrbit.mk 86400 0 0 "B",
        SentinelOrbit.mk 86401 0 0 "C"] =
      some [SentinelOrbit.mk 0 0 0 "A", SentinelOrbit.mk 86400 0 0 "B",
        SentinelOrbit.mk 86401 0 0 "C"] ∧
    dedupeLastKept [SentinelOrbit.mk 0 0 0 "A", SentinelOrbit.mk 86400 0 0 "B",
        SentinelOrbit.mk 86401 0 0 "C"] =
      some [SentinelOrbit.mk 0 0 0 "A", SentinelOrbit.mk 86400 0 0 "B"] := by
  constructor
  · rfl
  · rfl

/-- C2 amended: the deduplicator keeps the first candidate and keeps each
subsequent candidate exactly when its validity-start date (day granularity)
differs from the FIRST candidate's validity-start date (the comparison
reference is never updated to the last kept candidate). -/
theorem dedupe_links_first_date :
    ∀ (l0 : SentinelOrbit) (rest : List SentinelOrbit),
      ∃ out, _dedupe_links (l0 :: rest) = some out ∧
        out.head? = some l0 ∧
        (∀ c, c ∈ out ↔ (c = l0 ∨ (c ∈ rest ∧ c.date ≠ l0.date))) := by
  intro l0 rest
  refine ⟨l0 :: rest.filter (fun link => decide (link.date ≠ l0.date)), rfl, rfl, ?_⟩
  intro c
  simp [List.mem_filter]

/-- C8: for every non-empty input, the deduplicator never lengthens the list
and never drops a candidate whose validity-start date is shared by no other
candidate of the input. -/
theorem dedupe_links_length_unique :
    ∀ (links : List SentinelOrbit), links ≠ [] →
      ∃ out, _dedupe_links links = some out ∧
        out.length ≤ links.length ∧
        ∀ c ∈ links, (∀ d ∈ links, d ≠ c → d.date ≠ c.date) → c ∈ out := by
  intro links hne
  obtain ⟨l0, rest, rfl⟩ := List.exists_cons_of_ne_nil hne
  refine ⟨l0 :: rest.filter (fun link => decide (link.date ≠ l0.date)), rfl, ?_, ?_⟩
  · simpa using Nat.succ_le_succ (List.length_filter_le _ rest)
  · intro c hc huniq
    rcases List.mem_cons.mp hc with rfl | hcr
    · exact List.mem_cons_self _ _
    · by_cases h0 : c = l0
      · subst h0
        exact List.mem_cons_self _ _
      · have hdate : l0.date ≠ c.date :=
          huniq l0 (List.mem_cons_self l0 rest) (fun h => h0 h.symm)
        refine List.mem_cons_of_mem _ (List.mem_filter.mpr ⟨hcr, ?_⟩)
        simpa using fun h => hdate h.symm

/-- Witness for C8 at a concrete input. -/
theorem dedupe_links_length_unique_witness :
    ∃ out, _dedupe_links [SentinelOrbit.mk 0 0 0 "A", SentinelOrbit.mk 86400 0 0 "B"] =
        some out ∧
      out.length ≤ ([SentinelOrbit.mk 0 0 0 "A",
        SentinelOrbit.mk 86400 0 0 "B"] : List SentinelOrbit).length ∧
      ∀ c ∈ [SentinelOrbit.mk 0 0 0 "A", SentinelOrbit.mk 86400 0 0 "B"],
        (∀ d ∈ [SentinelOrbit.mk 0 0 0 "A", SentinelOrbit.mk 86400 0 0 "B"],
          d ≠ c → d.date ≠ c.date) → c ∈ out :=
  dedupe_links_length_unique
    [SentinelOrbit.mk 0 0 0 "A", SentinelOrbit.mk 86400 0 0 "B"] (by decide)

/-- C9: the deduplicator fails on the empty list (out-of-range access on
`links[0]`, modelled by `none`) rather than returning an empty list, and on
every non-empty input the first element of the output is the first element
of the input. -/
theorem dedupe_links_empty_and_head :
    _dedupe_links ([] : List SentinelOrbit) = none ∧
    ∀ (l0 : SentinelOrbit) (rest : List SentinelOrbit),
      ∃ out, _dedupe_links (l0 :: rest) = some out ∧ out.head? = some l0 := by
  refine ⟨rfl, ?_⟩
  intro l0 rest
  exact ⟨l0 :: rest.filter (fun link => decide (link.date ≠ l0.date)), rfl, rfl⟩

theorem dateOf_sub_day (t : Int) : dateOf (t - 86400) = dateOf t - 1 := by
  have h := Int.add_mul_ediv_right t (-1) (show (86400 : Int) ≠ 0 by decide)
  have e : t + -1 * 86400 = t - 86400 := by ring
  rw [e] at h
  simp only [dateOf, secondsPerDay]
  rw [h]
  ring

theorem dateOf_add_day (t : Int) : dateOf (t + 86400) = dateOf t + 1 := by
  have h := Int.add_mul_ediv_right t 1 (show (86400 : Int) ≠ 0 by decide)
  have e : t + 1 * 86400 = t + 86400 := by ring
  rw [e] at h
  simp only [dateOf, secondsPerDay]
  rw [h]

/-- Result of fetching one archive listing page: the server either answers
HTTP 404 or serves a page whose anchors parse (via `EOFLinkFinder` and the
`SentinelOrbit` descriptor, both outside `src/`) to a list of links. -/
inductive FetchResult where
  | status404 : FetchResult
  | page (links : List SentinelOrbit) : FetchResult

/-- The archive HTTP adapter used by `eof_list`: given the orbit type and the
day of the search date (the URL is `BASE_URL/{orbit_type}/{Y/m/d of
search_dt}/`), return the response.  Network retrieval is embedded as a
function argument. -/
def ArchiveFetch : Type := String → Int → FetchResult

/-- Modelled behaviour of Python `str.startswith`, applied by `eof_list` to
keep the page links that begin with the mission identifier.  It is defined at
the character-list level because the built-in `String.startsWith` is compiled
and does not evaluate inside the kernel. -/
def startswith (s p : String) : Bool := p.data.isPrefixOf s.data

/-- Offset added to the validity start to find the archive page, from
`eof_list`: 20 days 12 hours for `POEORB`, 4 hours otherwise. -/
def validity_creation_diff (orbit_type : String) : Int :=
  if orbit_type = "POEORB" then 20 * 86400 + 12 * 3600 else 4 * 3600

/-- Embedding of the `orbit_type == RESORB` pass of `eof_list` (download.py
lines 95-158): fetch the RESORB page for `start_dt + 4h`; on 404 or on no
link starting with the mission identifier, raise `ValueError`; otherwise
return the matching links tagged with the orbit type.  The source is a single
recursive function whose only recursive call passes `RESTITUTED_ORBIT`; that
call is unfolded into this specialized body. -/
def eof_list_resorb (fetch : ArchiveFetch) (start_dt : Int) (mission : String) :
    Except String (List SentinelOrbit × String) :=
  match fetch "RESORB" (dateOf (start_dt + validity_creation_diff "RESORB")) with
  | FetchResult.status404 => Except.error "Orbits not avilable yet"
  | FetchResult.page page_links =>
    let links := page_links.filter (fun link => startswith link.filename mission)
    if links.isEmpty then Except.error "No EOF files found"
    else Except.ok (links, "RESORB")

/-- Embedding of `eof_list` (download.py lines 95-158).  For the precise
orbit type, fetch the POEORB page for `start_dt + 20d12h`; on 404 or on an
empty link list fall back to the RESORB pass; otherwise return the matching
links tagged `POEORB`. -/
def eof_list (fetch : ArchiveFetch) (start_dt : Int) (mission : String)
    (orbit_type : String) : Except String (List SentinelOrbit × String) :=
  if orbit_type = "POEORB" then
    match fetch "POEORB" (dateOf (start_dt + validity_creation_diff "POEORB")) with
    | FetchResult.status404 => eof_list_resorb fetch start_dt mission
    | FetchResult.page page_links =>
      let links := page_links.filter (fun link => startswith link.filename mission)
      if links.isEmpty then eof_list_resorb fetch start_dt mission
      else Except.ok (links, "POEORB")
  else eof_list_resorb fetch start_dt mission

/-- Embedding of `_pick_precise_file` (download.py lines 170-180): keep a
link exactly when its validity-start date is the day before `sent_date` and
its validity-stop date is the day after. -/
def _pick_precise_file (links : List SentinelOrbit) (sent_date : Int) :
    List SentinelOrbit :=
  links.filter (fun so =>
    decide (dateOf so.start_time = dateOf (sent_date - 86400) ∧
      dateOf so.stop_time = dateOf (sent_date + 86400)))

/-- Embedding of the link-selection part of `_download_and_write` (download.py
lines 183-222): on a `ValueError` from `eof_list` the function logs and
returns `None` (modelled `Except.ok none`); otherwise it deduplicates the
links and, only when the returned orbit type is `POEORB`, applies
`_pick_precise_file`.  The trailing loop that downloads each selected link
and writes it to disk is filesystem and network I/O outside the shallow
embedding; the selected links determine the files it saves.  An `IndexError`
escaping `_dedupe_links` would not be caught (it is not a `ValueError`),
modelled as `Except.error`; it is unreachable because `eof_list` never
returns an empty link list. -/
def _download_and_write (fetch : ArchiveFetch) (mission : String) (dt : Int) :
    Except String (Option (List SentinelOrbit)) :=
  match eof_list fetch dt mission "POEORB" with
  | Except.error _ => Except.ok none
  | Except.ok (cur_links, orbit_type) =>
    match _dedupe_links cur_links with
    | none => Except.error "IndexError"
    | some deduped =>
      Except.ok (some (if orbit_type = "POEORB" then _pick_precise_file deduped dt
        else deduped))

/-- Aggregation loop of `download_eofs` (download.py lines 80-92): collect
each per-request result with `filenames.extend(cur_filenames)`.  When
`_download_and_write` returned `None` (both tiers failed), Python's
`extend(None)` raises `TypeError`; a worker exception re-raised by
`result.get()` propagates as well.  The thread pool is modelled by the
deterministic sequential fold over the requests. -/
def download_eofs_go (fetch : ArchiveFetch) :
    List (String × Int) → List SentinelOrbit → Except String (List SentinelOrbit)
  | [], filenames => Except.ok filenames
  | (mission, dt) :: rest, filenames =>
    match _download_and_write fetch mission dt with
    | Except.error e => Except.error e
    | Except.ok none => Except.error "TypeError: NoneType object is not iterable"
    | Except.ok (some cur) => download_eofs_go fetch rest (filenames ++ cur)

/-- Embedding of `download_eofs` (download.py lines 49-92) restricted to the
explicit `missions`/`orbit_dts` form (argument validation and the
`sentinel_file` branch are input plumbing outside the claims). -/
def download_eofs (fetch : ArchiveFetch) (missions : List String)
    (orbit_dts : List Int) : Except String (List SentinelOrbit) :=
  download_eofs_go fetch (missions.zip orbit_dts) []

theorem eof_list_resorb_ok_ne_nil (fetch : ArchiveFetch) (start_dt : Int)
    (mission : String) (links : List SentinelOrbit) (ty : String)
    (h : eof_list_resorb fetch start_dt mission = Except.ok (links, ty)) :
    links ≠ [] ∧ ty = "RESORB" := by
  unfold eof_list_resorb at h
  cases hf : fetch "RESORB" (dateOf (start_dt + validity_creation_diff "RESORB")) with
  | status404 => rw [hf] at h; exact absurd h (by simp)
  | page page_links =>
      rw [hf] at h
      simp only at h
      by_cases he : (page_links.filter (fun link => startswith link.filename mission)).isEmpty
      · rw [if_pos he] at h; exact absurd h (by simp)
      · rw [if_neg he] at h
        have this1 := Except.ok.inj h
        refine ⟨?_, (congrArg Prod.snd this1).symm⟩
        have hl : links = page_links.filter (fun link => startswith link.filename mission) :=
          (congrArg Prod.fst this1).symm
        rw [hl]
        intro hnil
        rw [hnil] at he
        exact he rfl

theorem eof_list_ok_ne_nil (fetch : ArchiveFetch) (start_dt : Int)
    (mission : String) (orbit_type : String) (links : List SentinelOrbit)
    (ty : String)
    (h : eof_list fetch start_dt mission orbit_type = Except.ok (links, ty)) :
    links ≠ [] := by
  unfold eof_list at h
  by_cases hp : orbit_type = "POEORB"
  · rw [if_pos hp] at h
    cases hf : fetch "POEORB" (dateOf (start_dt + validity_creation_diff "POEORB")) with
    | status404 =>
        rw [hf] at h
        exact (eof_list_resorb_ok_ne_nil _ _ _ _ _ h).1
    | page page_links =>
        rw [hf] at h
        simp only at h
        by_cases he : (page_links.filter (fun link => startswith link.filename mission)).isEmpty
        · rw [if_pos he] at h
          exact (eof_list_resorb_ok_ne_nil _ _ _ _ _ h).1
        · rw [if_neg he] at h
          have this1 := Except.ok.inj h
          have hl : links = page_links.filter (fun link => startswith link.filename mission) :=
            (congrArg Prod.fst this1).symm
          rw [hl]
          intro hnil
          rw [hnil] at he
          exact he rfl
  · rw [if_neg hp] at h
    exact (eof_list_resorb_ok_ne_nil _ _ _ _ _ h).1

/-- C4: `_pick_precise_file` keeps a candidate exactly when its
validity-start date is the target date minus one day and its validity-stop
date is the target date plus one day (anything else is excluded outright);
and when `eof_list` fell back to the RESTITUTED tier, `_download_and_write`
applies only the deduplicator — restituted links are never passed through
this filter. -/
theorem pick_precise_straddle_resorb_skip :
    (∀ (links : List SentinelOrbit) (sent_date : Int) (c : SentinelOrbit),
      c ∈ _pick_precise_file links sent_date ↔
        (c ∈ links ∧ dateOf c.start_time = dateOf sent_date - 1 ∧
          dateOf c.stop_time = dateOf sent_date + 1))
    ∧ (∀ (fetch : ArchiveFetch) (mission : String) (dt : Int)
        (links : List SentinelOrbit),
        eof_list fetch dt mission "POEORB" = Except.ok (links, "RESORB") →
        _download_and_write fetch mission dt = Except.ok (_dedupe_links links)) := by
  constructor
  · intro links sent_date c
    simp [_pick_precise_file, List.mem_filter, dateOf_sub_day, dateOf_add_day]
  · intro fetch mission dt links h
    have hne := eof_list_ok_ne_nil fetch dt mission "POEORB" links "RESORB" h
    obtain ⟨l0, rest, rfl⟩ := List.exists_cons_of_ne_nil hne
    unfold _download_and_write
    rw [h]
    simp [_dedupe_links]

/-- Witness for C4 at a concrete input: the precise page is 404, the
restituted page has one matching link; `_download_and_write` returns the
deduplicated links untouched by the straddling filter. -/
theorem pick_precise_straddle_resorb_skip_witness :
    _download_and_write
        (fun otype _ => if otype = "POEORB" then FetchResult.status404
          else FetchResult.page [SentinelOrbit.mk 0 100 5 "S1A_X"]) "S1A" 0 =
      Except.ok (_dedupe_links [SentinelOrbit.mk 0 100 5 "S1A_X"]) :=
  pick_precise_straddle_resorb_skip.2
    (fun otype _ => if otype = "POEORB" then FetchResult.status404
      else FetchResult.page [SentinelOrbit.mk 0 100 5 "S1A_X"]) "S1A" 0
    [SentinelOrbit.mk 0 100 5 "S1A_X"] (by rfl)

/-- C3, code bug, evaluated at the failing input: when no orbit file is found
for a request in either tier, `_download_and_write` catches the `ValueError`,
logs Skipping, and returns `None`; the aggregation loop of `download_eofs`
then executes `filenames.extend(None)`, which raises `TypeError` — the batch
call raises and the failed request is recorded nowhere in a result, contrary
to the claim that the batch call never raises and reports the request as
unresolved. -/
theorem download_eofs_raises_when_unresolved :
    download_eofs (fun _ _ => FetchResult.status404) ["S1A"] [0] =
      Except.error "TypeError: NoneType object is not iterable" := rfl

/-- One product record returned by the scihub catalog query
(`SentinelAPI.query`): a uuid key and the product info, of which the code
reads only the `identifier` string.  Modelled from the spec:
`get_validity_info` parses each identifier through the `SentinelOrbit`
descriptor (products.py, not under src/), so the record carries the parsed
descriptor, whose `filename` field is the identifier string itself. -/
structure ScihubProduct where
  uuid : String
  identifier : SentinelOrbit
deriving DecidableEq

/-- Embedding of `get_validity_info` (scihubclient.py lines 22-23): parse
every product identifier into its descriptor — the projection, since the
records already carry the parsed descriptor. -/
def get_validity_info (products : List ScihubProduct) : List SentinelOrbit :=
  products.map (fun p => p.identifier)

/-- Embedding of `ScihubGnssClient._select_orbit` (scihubclient.py lines
76-83): an empty query gives an empty dict; otherwise run `lastval_cover`
over the parsed identifiers — its `ValidityError` is NOT caught anywhere in
the client and propagates — and keep the products whose identifier equals
the winning filename. -/
def _select_orbit (products : List ScihubProduct) (t0 t1 : Int) :
    Except String (List ScihubProduct) :=
  if products.isEmpty then Except.ok []
  else
    match lastval_cover t0 t1 (get_validity_info products) with
    | Except.error e => Except.error e
    | Except.ok product_id =>
      Except.ok (products.filter (fun p => decide (p.identifier.filename = product_id)))

/-- The scihub catalog adapter (`SentinelAPI.query` as used by
`query_orbit`): mission, product type, begin position bound, end position
bound.  The network call is a function argument of the embedding. -/
def ScihubApi : Type := String → String → Int → Int → List ScihubProduct

/-- Embedding of `ScihubGnssClient.query_orbit` (scihubclient.py lines
60-74): forward the time window and identifiers to the API. -/
def query_orbit (api : ScihubApi) (t0 t1 : Int) (satellite_id : String)
    (product_type : String) : List ScihubProduct :=
  api satellite_id product_type t0 t1

/-- Python truthiness of the `result` variable in `query_orbit_by_dt`:
`None` and the empty dict are falsy. -/
def truthy : Option (List ScihubProduct) → Bool
  | none => false
  | some l => !l.isEmpty

/-- The restituted-tier attempt of `query_orbit_by_dt` (scihubclient.py
lines 149-160): query AUX_RESORB products in a one-hour margin window around
`dt` and, when the query is non-empty, run `_select_orbit` on the interval
`[dt, dt + 1 minute]`. -/
def resorb_attempt (api : ScihubApi) (mission : String) (dt : Int) :
    Except String (Option (List ScihubProduct)) :=
  let products := query_orbit api (dt - 3600) (dt + 3600) mission "AUX_RESORB"
  if products.isEmpty then Except.ok none
  else
    match _select_orbit products dt (dt + 60) with
    | Except.error e => Except.error e
    | Except.ok sel => Except.ok (some sel)

/-- The precise-tier attempt of `query_orbit_by_dt` (scihubclient.py lines
130-141): query AUX_POEORB products in the margin window and, when the query
is non-empty, run `_select_orbit` on `[dt, dt + 1 minute]`.  No
deduplication and no straddling filter take part in this path. -/
def precise_attempt (api : ScihubApi) (t0_margin t1_margin : Int)
    (mission : String) (dt : Int) : Except String (Option (List ScihubProduct)) :=
  let products := query_orbit api (dt - t0_margin) (dt + t1_margin) mission "AUX_POEORB"
  if products.isEmpty then Except.ok none
  else
    match _select_orbit products dt (dt + 60) with
    | Except.error e => Except.error e
    | Except.ok sel => Except.ok (some sel)

/-- Body of the per-request loop of `query_orbit_by_dt` (scihubclient.py
lines 127-166): try the precise tier only when `orbit_type == "precise"`;
when the result is falsy (`None` for an empty query), retry with AUX_RESORB
in a one-hour margin window; `some` is a found result, `none` means the
request goes to `remaining_dates`.  Exceptions (the uncaught
`ValidityError`) propagate. -/
def resolve_one (api : ScihubApi) (orbit_type : String) (t0_margin t1_margin : Int)
    (mission : String) (dt : Int) : Except String (Option (List ScihubProduct)) :=
  match (if orbit_type = "precise"
      then precise_attempt api t0_margin t1_margin mission dt
      else Except.ok none) with
  | Except.error e => Except.error e
  | Except.ok result =>
    if truthy result then Except.ok result
    else
      match resorb_attempt api mission dt with
      | Except.error e => Except.error e
      | Except.ok r2 =>
        if truthy r2 then Except.ok r2 else Except.ok none

/-- The loop of `query_orbit_by_dt` over `zip(missions, orbit_dts)`,
threading the `query` dict (updates append the found products) and the
`remaining_dates` list. -/
def query_orbit_by_dt_go (api : ScihubApi) (orbit_type : String)
    (t0_margin t1_margin : Int) :
    List (String × Int) → List ScihubProduct → List (String × Int) →
      Except String (List ScihubProduct × List (String × Int))
  | [], query, remaining => Except.ok (query, remaining)
  | (mission, dt) :: rest, query, remaining =>
    match resolve_one api orbit_type t0_margin t1_margin mission dt with
    | Except.error e => Except.error e
    | Except.ok none =>
        query_orbit_by_dt_go api orbit_type t0_margin t1_margin rest query
          (remaining ++ [(mission, dt)])
    | Except.ok (some found) =>
        query_orbit_by_dt_go api orbit_type t0_margin t1_margin rest (query ++ found)
          remaining

/-- Embedding of `ScihubGnssClient.query_orbit_by_dt` (scihubclient.py lines
103-170).  The Python function returns only the `query` dict; the
`remaining_dates` list exists only to be logged in a warning.  The model
returns both — the second component is the content of that warning-log side
channel, made explicit by state passing. -/
def query_orbit_by_dt (api : ScihubApi) (missions : List String)
    (orbit_dts : List Int) (orbit_type : String) (t0_margin t1_margin : Int) :
    Except String (List ScihubProduct × List (String × Int)) :=
  query_orbit_by_dt_go api orbit_type t0_margin t1_margin (missions.zip orbit_dts) [] []

theorem lastval_cover_ok_exists (t0 t1 : Int) (data : List SentinelOrbit)
    (fn : String) (h : lastval_cover t0 t1 data = Except.ok fn) :
    ∃ c ∈ data, covers c t0 t1 ∧ fn = c.filename := by
  simp only [lastval_cover] at h
  cases hh : ((data.filter (fun item => decide (covers item t0 t1))).mergeSort
      (keyDesc SentinelOrbit.created_time)).head? with
  | none => rw [hh] at h; exact absurd h (by simp)
  | some c =>
      rw [hh] at h
      have hfn : fn = c.filename := (Except.ok.inj h).symm
      obtain ⟨ys, hys⟩ := List.head?_eq_some_iff.mp hh
      have hcmem : c ∈ (data.filter (fun item => decide (covers item t0 t1))).mergeSort
          (keyDesc SentinelOrbit.created_time) := by
        rw [hys]; exact List.mem_cons_self c ys
      have := List.mem_filter.mp (List.mem_mergeSort.mp hcmem)
      exact ⟨c, this.1, of_decide_eq_true this.2, hfn⟩

theorem lastval_cover_ok_max (t0 t1 : Int) (data : List SentinelOrbit)
    (fn : String) (h : lastval_cover t0 t1 data = Except.ok fn) :
    ∃ c ∈ data, covers c t0 t1 ∧ fn = c.filename ∧
      ∀ a ∈ data, covers a t0 t1 → a.created_time ≤ c.created_time := by
  obtain ⟨c0, hc0, hcov0, -⟩ := lastval_cover_ok_exists t0 t1 data fn h
  obtain ⟨i, hcov, hres, hmax, -⟩ :=
    lastval_cover_characterization t0 t1 data ⟨c0, hc0, hcov0⟩
  rw [h] at hres
  refine ⟨data.get i, List.get_mem data i.val i.isLt, hcov, Except.ok.inj hres, ?_⟩
  intro a ha hacov
  obtain ⟨j, rfl⟩ := List.mem_iff_get.mp ha
  exact hmax j hacov

theorem lastval_cover_error_no_cover (t0 t1 : Int) (data : List SentinelOrbit)
    (e : String) (h : lastval_cover t0 t1 data = Except.error e) :
    ∀ c ∈ data, ¬ covers c t0 t1 := by
  intro c hc hcov
  obtain ⟨i, -, hres, -, -⟩ := lastval_cover_characterization t0 t1 data ⟨c, hc, hcov⟩
  rw [h] at hres
  exact Except.noConfusion hres

theorem lastval_cover_no_cover_error (t0 t1 : Int) (data : List SentinelOrbit)
    (h : ∀ c ∈ data, ¬ covers c t0 t1) :
    lastval_cover t0 t1 data =
      Except.error
        "none of the input products completely covers the requested time interval" := by
  have hnil : data.filter (fun item => decide (covers item t0 t1)) = [] :=
    List.filter_eq_nil_iff.mpr (fun a ha => by simpa using h a ha)
  simp only [lastval_cover]
  rw [hnil, List.mergeSort_nil]
  rfl

theorem select_orbit_ok_spec (products : List ScihubProduct) (t0 t1 : Int)
    (sel : List ScihubProduct) (hne : products ≠ [])
    (h : _select_orbit products t0 t1 = Except.ok sel) :
    ∃ c ∈ products, covers c.identifier t0 t1 ∧
      sel = products.filter
        (fun p => decide (p.identifier.filename = c.identifier.filename)) ∧
      ∀ p ∈ products, covers p.identifier t0 t1 →
        p.identifier.created_time ≤ c.identifier.created_time := by
  unfold _select_orbit at h
  rw [if_neg (by simpa [List.isEmpty_iff] using hne)] at h
  cases hl : lastval_cover t0 t1 (get_validity_info products) with
  | error e => rw [hl] at h; exact absurd h (by simp)
  | ok product_id =>
      rw [hl] at h
      have hsel : products.filter
          (fun p => decide (p.identifier.filename = product_id)) = sel :=
        Except.ok.inj h
      obtain ⟨c, hcmem, hcov, hfn, hmax⟩ :=
        lastval_cover_ok_max t0 t1 (get_validity_info products) product_id hl
      obtain ⟨pc, hpc, hpcid⟩ := List.mem_map.mp hcmem
      refine ⟨pc, hpc, by rw [hpcid]; exact hcov, ?_, ?_⟩
      · rw [← hsel, hpcid, ← hfn]
      · intro p hp hpcov
        have hmem : p.identifier ∈ get_validity_info products :=
          List.mem_map_of_mem (fun q => q.identifier) hp
        have := hmax p.identifier hmem hpcov
        rw [hpcid]
        exact this

theorem select_orbit_error_iff (products : List ScihubProduct) (t0 t1 : Int)
    (hne : products ≠ []) :
    (∃ e, _select_orbit products t0 t1 = Except.error e) ↔
      ∀ p ∈ products, ¬ covers p.identifier t0 t1 := by
  unfold _select_orbit
  rw [if_neg (by simpa [List.isEmpty_iff] using hne)]
  constructor
  · rintro ⟨e, he⟩ p hp hcov
    cases hl : lastval_cover t0 t1 (get_validity_info products) with
    | ok fn => rw [hl] at he; exact absurd he (by simp)
    | error e2 =>
        exact lastval_cover_error_no_cover t0 t1 (get_validity_info products) e2 hl
          p.identifier (List.mem_map_of_mem (fun q => q.identifier) hp) hcov
  · intro hno
    have : ∀ c ∈ get_validity_info products, ¬ covers c t0 t1 := by
      intro c hc
      obtain ⟨p, hp, rfl⟩ := List.mem_map.mp hc
      exact hno p hp
    rw [lastval_cover_no_cover_error t0 t1 (get_validity_info products) this]
    exact ⟨_, rfl⟩

/-- C5 amended: when the precise-tier query comes back EMPTY, the client
falls back to the restituted tier — it queries AUX_RESORB products in a
one-hour margin window around `dt`, skips any straddling filter, and any
returned result consists of products of that restituted query selected by
coverage of `[dt, dt + 1 minute]`.  (When precise candidates exist but none
covers, the client instead raises `ValidityError`; see the
counterexample.) -/
theorem precise_empty_falls_back_restituted :
    ∀ (api : ScihubApi) (t0_margin t1_margin : Int) (mission : String) (dt : Int)
      (sel : List ScihubProduct),
      query_orbit api (dt - t0_margin) (dt + t1_margin) mission "AUX_POEORB" = [] →
      resolve_one api "precise" t0_margin t1_margin mission dt =
        Except.ok (some sel) →
      sel ≠ [] ∧
      (∀ p ∈ sel, p ∈ query_orbit api (dt - 3600) (dt + 3600) mission "AUX_RESORB") ∧
      ∃ c ∈ query_orbit api (dt - 3600) (dt + 3600) mission "AUX_RESORB",
        covers c.identifier dt (dt + 60) ∧
        ∀ p ∈ sel, p.identifier.filename = c.identifier.filename := by
  intro api t0m t1m mission dt sel hempty hres
  have hpa : precise_attempt api t0m t1m mission dt = Except.ok none := by
    simp only [precise_attempt]
    rw [hempty]
    rfl
  have hres2 : (match resorb_attempt api mission dt with
      | Except.error e => Except.error e
      | Except.ok r2 => if truthy r2 then Except.ok r2 else Except.ok none) =
      Except.ok (some sel) := by
    unfold resolve_one at hres
    rw [if_pos rfl, hpa] at hres
    exact hres
  cases hra : resorb_attempt api mission dt with
  | error e => rw [hra] at hres2; exact absurd hres2 (by simp)
  | ok r2 =>
      rw [hra] at hres2
      cases r2 with
      | none => simp [truthy] at hres2
      | some l =>
          by_cases hl : l.isEmpty
          · simp [truthy, hl] at hres2
          · have hls : l = sel := by simpa [truthy, hl] using hres2
            subst hls
            have hselne : l ≠ [] := fun hn => hl (by rw [hn]; rfl)
            simp only [resorb_attempt] at hra
            by_cases hqe :
                (query_orbit api (dt - 3600) (dt + 3600) mission "AUX_RESORB").isEmpty
            · rw [if_pos hqe] at hra
              exact absurd hra (by simp)
            · rw [if_neg hqe] at hra
              cases hso : _select_orbit
                  (query_orbit api (dt - 3600) (dt + 3600) mission "AUX_RESORB")
                  dt (dt + 60) with
              | error e => rw [hso] at hra; exact absurd hra (by simp)
              | ok sel2 =>
                  rw [hso] at hra
                  have hsel2 : sel2 = l := by simpa using hra
                  subst hsel2
                  have hqne :
                      query_orbit api (dt - 3600) (dt + 3600) mission "AUX_RESORB" ≠
                        [] :=
                    fun hn => hqe (by rw [hn]; rfl)
                  obtain ⟨c, hcmem, hccov, hself, -⟩ :=
                    select_orbit_ok_spec _ dt (dt + 60) sel2 hqne hso
                  refine ⟨hselne, ?_, c, hcmem, hccov, ?_⟩
                  · intro p hp
                    rw [hself] at hp
                    exact (List.mem_filter.mp hp).1
                  · intro p hp
                    rw [hself] at hp
                    exact of_decide_eq_true (List.mem_filter.mp hp).2

unseal List.merge List.mergeSort in
/-- Witness for C5 (amended) at a concrete input: the precise query is
empty, the restituted query holds one covering product, and the fallback
returns it. -/
theorem precise_empty_falls_back_restituted_witness :
    ([ScihubProduct.mk "u2" (SentinelOrbit.mk (-100000) 100000 0 "R")] :
        List ScihubProduct) ≠ [] ∧
    (∀ p ∈ ([ScihubProduct.mk "u2" (SentinelOrbit.mk (-100000) 100000 0 "R")] :
        List ScihubProduct),
      p ∈ query_orbit
        (fun _ ptype _ _ =>
          if ptype = "AUX_RESORB"
          then [ScihubProduct.mk "u2" (SentinelOrbit.mk (-100000) 100000 0 "R")]
          else []) (0 - 3600) (0 + 3600) "S1A" "AUX_RESORB") ∧
    ∃ c ∈ query_orbit
        (fun _ ptype _ _ =>
          if ptype = "AUX_RESORB"
          then [ScihubProduct.mk "u2" (SentinelOrbit.mk (-100000) 100000 0 "R")]
          else []) (0 - 3600) (0 + 3600) "S1A" "AUX_RESORB",
      covers c.identifier 0 (0 + 60) ∧
      ∀ p ∈ ([ScihubProduct.mk "u2" (SentinelOrbit.mk (-100000) 100000 0 "R")] :
          List ScihubProduct),
        p.identifier.filename = c.identifier.filename :=
  precise_empty_falls_back_restituted
    (fun _ ptype _ _ =>
      if ptype = "AUX_RESORB"
      then [ScihubProduct.mk "u2" (SentinelOrbit.mk (-100000) 100000 0 "R")]
      else []) 86400 86400 "S1A" 0
    [ScihubProduct.mk "u2" (SentinelOrbit.mk (-100000) 100000 0 "R")] rfl (by rfl)

unseal List.merge List.mergeSort in
/-- C5 counterexample: the precise tier returns a candidate list that is
non-empty but contains no product covering `[dt, dt + 1 minute]`.  The claim
says the client then retries the restituted tier; instead, the uncaught
`ValidityError` from `lastval_cover` propagates out of the batch call, even
though the restituted tier (second conjunct) would have produced a covering
result. -/
theorem query_orbit_by_dt_raises_instead_of_fallback :
    query_orbit_by_dt
        (fun _ ptype _ _ =>
          if ptype = "AUX_POEORB"
          then [ScihubProduct.mk "u1" (SentinelOrbit.mk 100 200 0 "P")]
          else [ScihubProduct.mk "u2" (SentinelOrbit.mk (-100000) 100000 0 "R")])
        ["S1A"] [0] "precise" 86400 86400 =
      Except.error
        "none of the input products completely covers the requested time interval" ∧
    resorb_attempt
        (fun _ ptype _ _ =>
          if ptype = "AUX_POEORB"
          then [ScihubProduct.mk "u1" (SentinelOrbit.mk 100 200 0 "P")]
          else [ScihubProduct.mk "u2" (SentinelOrbit.mk (-100000) 100000 0 "R")])
        "S1A" 0 =
      Except.ok (some [ScihubProduct.mk "u2" (SentinelOrbit.mk (-100000) 100000 0 "R")]) :=
  ⟨rfl, rfl⟩

/-- Modelled from the spec: the pipeline the claim describes for the
precise-tier attempt — Deduplicator, then straddling Filter, then the
covering Selector on `[time, time + 1 minute]` — assembled from the code's
own components in the claimed order, for comparison with what the code
actually runs. -/
def claimed_precise_pipeline (candidates : List SentinelOrbit) (time : Int) :
    Option (Except String String) :=
  match _dedupe_links candidates with
  | none => none
  | some deduped =>
      some (lastval_cover time (time + 60) (_pick_precise_file deduped time))

unseal List.merge List.mergeSort in
/-- C7 counterexample: two same-day covering candidates.  The claimed
pipeline (Deduplicator first) drops the second and selects `A`; the actual
scihub precise attempt runs the Selector alone on the raw list and selects
`B`, the later-created duplicate.  No code path runs
Deduplicator-Filter-Selector. -/
theorem scihub_precise_attempt_not_claimed_pipeline :
    _select_orbit
        [ScihubProduct.mk "ua" (SentinelOrbit.mk 777600 950500 1 "A"),
         ScihubProduct.mk "ub" (SentinelOrbit.mk 777650 950600 2 "B")]
        864000 (864000 + 60) =
      Except.ok [ScihubProduct.mk "ub" (SentinelOrbit.mk 777650 950600 2 "B")] ∧
    claimed_precise_pipeline
        [SentinelOrbit.mk 777600 950500 1 "A", SentinelOrbit.mk 777650 950600 2 "B"]
        864000 = some (Except.ok "A") ∧
    ("A" : String) ≠ "B" :=
  ⟨rfl, rfl, by decide⟩

/-- C7 amended: the scihub precise-tier attempt applies only the
interval-covering Selector, requiring containment of `[time, time + 1
minute]`, directly to the raw candidate list — no Deduplicator and no
straddling Filter take part on that path (the archive-listing path applies
Deduplicator then Filter but never the Selector).  The Selector-only step is
characterized here: it errs exactly when no raw candidate covers, and on
success it returns the products carrying a covering identifier of maximal
creation time. -/
theorem select_orbit_selector_only :
    ∀ (products : List ScihubProduct) (dt : Int), products ≠ [] →
      ((∃ e, _select_orbit products dt (dt + 60) = Except.error e) ↔
        ∀ p ∈ products, ¬ covers p.identifier dt (dt + 60))
      ∧ ∀ sel, _select_orbit products dt (dt + 60) = Except.ok sel →
          ∃ c ∈ products, covers c.identifier dt (dt + 60) ∧
            sel = products.filter
              (fun p => decide (p.identifier.filename = c.identifier.filename)) ∧
            ∀ p ∈ products, covers p.identifier dt (dt + 60) →
              p.identifier.created_time ≤ c.identifier.created_time :=
  fun products dt hne =>
    ⟨select_orbit_error_iff products dt (dt + 60) hne,
     fun sel h => select_orbit_ok_spec products dt (dt + 60) sel hne h⟩

/-- Witness for C7 (amended) at a concrete input. -/
theorem select_orbit_selector_only_witness :
    ((∃ e, _select_orbit [ScihubProduct.mk "u" (SentinelOrbit.mk 0 100 3 "F")]
        10 (10 + 60) = Except.error e) ↔
      ∀ p ∈ [ScihubProduct.mk "u" (SentinelOrbit.mk 0 100 3 "F")],
        ¬ covers p.identifier 10 (10 + 60))
    ∧ ∀ sel, _select_orbit [ScihubProduct.mk "u" (SentinelOrbit.mk 0 100 3 "F")]
        10 (10 + 60) = Except.ok sel →
        ∃ c ∈ [ScihubProduct.mk "u" (SentinelOrbit.mk 0 100 3 "F")],
          covers c.identifier 10 (10 + 60) ∧
          sel = [ScihubProduct.mk "u" (SentinelOrbit.mk 0 100 3 "F")].filter
            (fun p => decide (p.identifier.filename = c.identifier.filename)) ∧
          ∀ p ∈ [ScihubProduct.mk "u" (SentinelOrbit.mk 0 100 3 "F")],
            covers p.identifier 10 (10 + 60) →
            p.identifier.created_time ≤ c.identifier.created_time :=
  select_orbit_selector_only [ScihubProduct.mk "u" (SentinelOrbit.mk 0 100 3 "F")]
    10 (by decide)
